import Mathlib

/-!
# tweetdrop — a verification development

Shallow embedding of the tweetdrop scraper (`src/scraper.ts`, the mode-1 and
mode-2 entry points and the follower scraper) together with the parts of the
`ethers` v5 library it calls (`ethers.utils.getAddress`, including the
Keccak-256 hash underlying the EIP-55 checksum), and proofs about the
embedded definitions.

Machine integers are modelled as `Nat` with explicit `% 2 ^ 64` where
overflow matters; JavaScript exceptions are modelled as `Except`/`Option`
results; the filesystem is a map from file names to file contents with
append semantics.
-/

set_option maxRecDepth 10000
set_option linter.unnecessarySeqFocus false

namespace Tweetdrop

/-! ## Character classes of the two regexes

`scraper.ts` line 7: `const addressRegex: RegExp = /(0x[a-zA-Z0-9])\w+/;`
`scraper.ts` line 8: `const ENSRegex: RegExp = /([^ ]+\.(eth))/i;`
-/

/-- Membership of `c` in the inclusive character range `lo`–`hi`. -/
def charBetween (lo hi c : Char) : Bool :=
  lo ≤ c && c ≤ hi

/-- The regex class `[a-zA-Z0-9]`. -/
def isAlnumChar (c : Char) : Bool :=
  charBetween 'a' 'z' c || charBetween 'A' 'Z' c || charBetween '0' '9' c

/-- The regex class `\w`, i.e. `[A-Za-z0-9_]`. -/
def isWordChar (c : Char) : Bool :=
  isAlnumChar c || c = '_'

/-- ASCII lower-casing, as `String.prototype.toLowerCase` acts on the ASCII
range (all inputs the program manipulates are ASCII). -/
def jsToLowerChar (c : Char) : Char :=
  if charBetween 'A' 'Z' c then Char.ofNat (c.toNat + 32) else c

/-- ASCII upper-casing, as `String.prototype.toUpperCase` on ASCII. -/
def jsToUpperChar (c : Char) : Char :=
  if charBetween 'a' 'z' c then Char.ofNat (c.toNat - 32) else c

/-- Lower-casing `s.toLowerCase()` on ASCII strings. -/
def jsToLower (s : String) : String := ⟨s.data.map jsToLowerChar⟩

/-- Upper-casing `s.toUpperCase()` on ASCII strings. -/
def jsToUpper (s : String) : String := ⟨s.data.map jsToUpperChar⟩

/-! ## The Matcher (`Scraper.cleanTweetsForAddresses`) -/

/-- Preprocessing `tweet.text.replace(/(\r\n|\n|\r)/gm, "")` (scraper.ts line 97): deleting
every CR and LF character. -/
def stripLineBreaks (l : List Char) : List Char :=
  l.filter (fun c => !(c = '\r' || c = '\n'))

/-- A match of `/(0x[a-zA-Z0-9])\w+/` anchored at the head of `l`: the
literal `0x`, one `[a-zA-Z0-9]`, then a greedy non-empty run of `\w`.
Returns the matched characters. -/
def matchAddressAt : List Char → Option (List Char)
  | '0' :: 'x' :: c :: rest =>
    if isAlnumChar c && !(rest.takeWhile isWordChar).isEmpty then
      some ('0' :: 'x' :: c :: rest.takeWhile isWordChar)
    else
      none
  | _ => none

/-- Tests `.eth` case-insensitively at the head of `l` (the `\.(eth)` part of
`ENSRegex` under the `i` flag). -/
def isDotEthAt : List Char → Bool
  | '.' :: e :: t :: h :: _ =>
    jsToLowerChar e = 'e' && jsToLowerChar t = 't' && jsToLowerChar h = 'h'
  | _ => false

/-- Backtracking search for the number of characters consumed by the greedy
`[^ ]+` of `ENSRegex` at the head of `l`: the largest `k ∈ [1, bound]` such
that `.eth` (case-insensitive) follows after `k` characters. -/
def greedyENSLen (l : List Char) : Nat → Option Nat
  | 0 => none
  | k + 1 => if isDotEthAt (l.drop (k + 1)) then some (k + 1) else greedyENSLen l k

/-- A match of `/([^ ]+\.(eth))/i` anchored at the head of `l`: a greedy
non-empty run of non-space characters (`[^ ]` excludes only U+0020),
backtracked until a case-insensitive `.eth` follows. Returns the matched
characters. -/
def matchENSAt (l : List Char) : Option (List Char) :=
  let run := l.takeWhile (fun c => c ≠ ' ')
  match greedyENSLen l run.length with
  | some k => some (l.take (k + 4))
  | none => none

/-- Models `String.prototype.match` with a non-global regex: the match at the
smallest starting index, scanning left to right. -/
def firstMatch (f : List Char → Option (List Char)) : List Char → Option (List Char)
  | [] => f []
  | c :: t =>
    match f (c :: t) with
    | some m => some m
    | none => firstMatch f t

/-- A collected tweet (`{ id: string; text: string }`, scraper.ts line 21). -/
structure Tweet where
  id : String
  text : String
deriving Repr, DecidableEq

/-- The startsWith test of scraper.ts line 107. -/
def startsWith0x : List Char → Bool
  | '0' :: 'x' :: _ => true
  | _ => false

/-- The per-tweet body of `Scraper.cleanTweetsForAddresses`
(scraper.ts lines 95–116): strip line breaks, take the first `addressRegex`
match and the first `ENSRegex` match, truncate a match starting with `0x`
to its first 42 characters, and push the results in that order. -/
def tweetCandidates (text : String) : List String :=
  let cleanedText := stripLineBreaks text.data
  let foundAddress := firstMatch matchAddressAt cleanedText
  let foundENS := firstMatch matchENSAt cleanedText
  ([foundAddress, foundENS].filterMap id).map fun m =>
    ⟨if startsWith0x m then m.take 42 else m⟩

/-- Models `Scraper.cleanTweetsForAddresses` over the collected tweet list: the
candidates of each tweet appended in tweet order (scraper.ts line 113 pushes
into `this.addresses`). -/
def cleanTweetsForAddresses (tweets : List Tweet) : List String :=
  (tweets.map (fun t => tweetCandidates t.text)).flatten

/-! ## Keccak-256

`scraper.ts` line 130 calls `ethers.utils.getAddress`, whose EIP-55 checksum
is derived from the Keccak-256 hash of the lower-case hex address. Lanes are
64-bit words modelled as `Nat` kept below `2 ^ 64`; the state is a list of
25 lanes, lane (x, y) at index `x + 5 * y`; bytes are `Nat` below 256. -/

def mask64 : Nat := 2 ^ 64 - 1

/-- Rotate a 64-bit lane left by `n` (0 ≤ n < 64). -/
def rotl64 (v n : Nat) : Nat :=
  ((v <<< n) ||| (v >>> (64 - n))) &&& mask64

/-- Lane (x, y) of a Keccak state. -/
def lane (s : List Nat) (x y : Nat) : Nat := s.getD (x + 5 * y) 0

/-- Keccak θ step. -/
def theta (s : List Nat) : List Nat :=
  let c := (List.range 5).map fun x =>
    lane s x 0 ^^^ lane s x 1 ^^^ lane s x 2 ^^^ lane s x 3 ^^^ lane s x 4
  let d := (List.range 5).map fun x =>
    c.getD ((x + 4) % 5) 0 ^^^ rotl64 (c.getD ((x + 1) % 5) 0) 1
  (List.range 25).map fun i => s.getD i 0 ^^^ d.getD (i % 5) 0

/-- The (position, offset) pairs of the ρ step, generated by the FIPS 202
recurrence: starting from (x, y) = (1, 0), step t rotates lane (x, y) by
((t+1)(t+2)/2) mod 64 and moves to (y, (2x + 3y) mod 5). -/
def rhoAssoc : List (Nat × Nat) :=
  (((List.range 24).foldl
      (fun (st : List (Nat × Nat) × Nat × Nat) t =>
        let acc := st.1
        let x := st.2.1
        let y := st.2.2
        ((x + 5 * y, ((t + 1) * (t + 2) / 2) % 64) :: acc, y, (2 * x + 3 * y) % 5))
      ([], 1, 0))).1

/-- Keccak rotation offsets, indexed by `x + 5 * y` (lane (0, 0) is not
rotated). -/
def rotOffsets : List Nat :=
  (List.range 25).map fun i => ((rhoAssoc.find? fun p => p.1 = i).map Prod.snd).getD 0

/-- Keccak ρ and π steps: lane (x, y) rotates by its offset and moves to
position (y, (2x + 3y) mod 5). -/
def rhoPi (s : List Nat) : List Nat :=
  let moved := (List.range 25).map fun i =>
    let x := i % 5
    let y := i / 5
    (y + 5 * ((2 * x + 3 * y) % 5), rotl64 (lane s x y) (rotOffsets.getD i 0))
  (List.range 25).map fun j =>
    ((moved.find? fun p => p.1 = j).map Prod.snd).getD 0

/-- Keccak χ step. -/
def chi (s : List Nat) : List Nat :=
  (List.range 25).map fun i =>
    let x := i % 5
    let y := i / 5
    lane s x y ^^^ ((lane s ((x + 1) % 5) y ^^^ mask64) &&& lane s ((x + 2) % 5) y)

/-- Keccak ι step: xor the round constant into lane (0, 0). -/
def iota (s : List Nat) (rc : Nat) : List Nat :=
  (List.range 25).map fun i => if i = 0 then s.getD 0 0 ^^^ rc else s.getD i 0

/-- One step of the degree-8 LFSR (x⁸ + x⁶ + x⁵ + x⁴ + 1, i.e. feedback
mask 0x71) that generates the Keccak round-constant bits. -/
def lfsrStep (r : Nat) : Nat :=
  if r &&& 0x80 ≠ 0 then ((r <<< 1) ^^^ 0x71) &&& 0xFF else (r <<< 1) &&& 0xFF

/-- One round constant: bit (2^j − 1) of the constant is the LFSR output at
sub-step j (j = 0 … 6). Returns the constant and the advanced register. -/
def nextRoundConstant (r : Nat) : Nat × Nat :=
  (List.range 7).foldl
    (fun (p : Nat × Nat) j =>
      ((if p.2 &&& 1 = 1 then p.1 ||| (1 <<< (2 ^ j - 1)) else p.1), lfsrStep p.2))
    (0, r)

/-- The 24 Keccak-f[1600] round constants, generated from the FIPS 202
LFSR with initial register 1. -/
def roundConstants : List Nat :=
  (((List.range 24).foldl
      (fun (st : List Nat × Nat) _ =>
        let rc := nextRoundConstant st.2
        (st.1 ++ [rc.1], rc.2))
      ([], 1))).1

/-- One Keccak round. -/
def keccakRound (s : List Nat) (rc : Nat) : List Nat :=
  iota (chi (rhoPi (theta s))) rc

/-- The Keccak-f[1600] permutation: 24 rounds. -/
def keccakF (s : List Nat) : List Nat :=
  roundConstants.foldl keccakRound s

/-- Keccak multi-rate padding for rate 1088 bits (136 bytes), with the
original `0x01` domain byte used by Ethereum (not the SHA-3 `0x06`). -/
def keccakPad (msg : List Nat) : List Nat :=
  let q := 136 - msg.length % 136
  if q = 1 then msg ++ [0x81]
  else msg ++ [0x01] ++ List.replicate (q - 2) 0 ++ [0x80]

/-- A little-endian lane from up to eight bytes. -/
def leBytesToLane (bs : List Nat) : Nat :=
  bs.foldr (fun b acc => acc * 256 + b) 0

/-- Xor a 136-byte block into the first 17 lanes of the state. -/
def xorIntoState (s : List Nat) (block : List Nat) : List Nat :=
  let lanes := (List.range 17).map fun j => leBytesToLane ((block.drop (8 * j)).take 8)
  (List.range 25).map fun i => s.getD i 0 ^^^ lanes.getD i 0

/-- Absorb a padded message (whose length is a multiple of 136) block by
block into the all-zero initial state. -/
def keccakAbsorb (padded : List Nat) : List Nat :=
  ((List.range (padded.length / 136)).map fun i => (padded.drop (136 * i)).take 136).foldl
    (fun s block => keccakF (xorIntoState s block)) (List.replicate 25 0)

/-- The eight little-endian bytes of a 64-bit lane. -/
def laneToLEBytes (v : Nat) : List Nat :=
  (List.range 8).map fun b => (v >>> (8 * b)) &&& 255

/-- Keccak-256 of a byte sequence: 32 output bytes. -/
def keccak256 (msg : List Nat) : List Nat :=
  let final := keccakAbsorb (keccakPad msg)
  ((List.range 4).map fun j => laneToLEBytes (final.getD j 0)).flatten

/-! ## The Validator: `ethers.utils.getAddress` (ethers v5) and
`Scraper.isValidAddress` (scraper.ts lines 124–136)

`getAddress` accepts (a) an optionally `0x`-prefixed string of 40 hex
digits, canonicalised by the EIP-55 mixed-case checksum and rejected if it
was mixed-case with a wrong checksum, and (b) an ICAP address
`XE` + 2 check digits + 30–31 base-36 digits with a valid IBAN checksum.
Anything else throws. A throw is modelled as `none`. -/

/-- The regex class `[0-9a-fA-F]`. -/
def isHexDigitChar (c : Char) : Bool :=
  charBetween '0' '9' c || charBetween 'a' 'f' c || charBetween 'A' 'F' c

/-- The regex `/^(0x)?[0-9a-fA-F]{40}$/`. When the string starts with `0x` only the
prefixed alternative can succeed (`x` is not a hex digit), so committing to
the prefix is faithful. -/
def hexAddrShape (s : String) : Bool :=
  if startsWith0x s.data then
    (s.data.drop 2).length = 40 && (s.data.drop 2).all isHexDigitChar
  else
    s.data.length = 40 && s.data.all isHexDigitChar

/-- The regex `/([A-F].*[a-f])|([a-f].*[A-F])/` holds exactly when the string contains
both an upper-case and a lower-case hex letter (one of the two orders must
occur). -/
def isMixedCaseHex (s : String) : Bool :=
  (s.data.any (charBetween 'A' 'F')) && (s.data.any (charBetween 'a' 'f'))

/-- ethers `isHexString(value, 20)`: `0x` followed by exactly 40 hex digits. -/
def isHexString20 (s : String) : Bool :=
  startsWith0x s.data
    && ((s.data.drop 2).length = 40 && (s.data.drop 2).all isHexDigitChar)

/-- ethers `getChecksumAddress`: Keccak-256 of the 40 lower-case hex
characters (as ASCII bytes); hex letter `i` is upper-cased when nibble `i`
of the hash is at least 8. Throws (`none`) unless the input is `0x` + 40
hex digits. -/
def getChecksumAddress (s : String) : Option String :=
  if isHexString20 s then
    let chars := (jsToLower s).data.drop 2
    let hashed := keccak256 (chars.map Char.toNat)
    let withCase := (List.range 40).map fun i =>
      let c := chars.getD i ' '
      let nib := if i % 2 = 0 then hashed.getD (i / 2) 0 / 16 else hashed.getD (i / 2) 0 % 16
      if 8 ≤ nib then jsToUpperChar c else c
    some ⟨'0' :: 'x' :: withCase⟩
  else none

/-- The regex `/^XE[0-9]{2}[0-9A-Za-z]{30,31}$/`. -/
def icapShape (s : String) : Bool :=
  match s.data with
  | 'X' :: 'E' :: d1 :: d2 :: rest =>
    d1.isDigit && d2.isDigit && (rest.length = 30 || rest.length = 31) &&
      rest.all isAlnumChar
  | _ => false

/-- ethers `ibanChecksum`: move the first four characters to the end,
replace them by `00`, expand letters to two-digit values (A = 10 … Z = 35),
and take 98 minus the resulting decimal number mod 97, zero-padded to two
digits. The chunked `parseInt`-based modulus of the JS source computes
exactly this remainder. Characters outside `[0-9A-Z]` cannot occur on the
shapes ethers calls this with and are skipped. -/
def ibanChecksum (s : String) : String :=
  let u := (jsToUpper s).data
  let rearranged := u.drop 4 ++ u.take 2 ++ ['0', '0']
  let n := rearranged.foldl
    (fun acc c =>
      if c.isDigit then acc * 10 + (c.toNat - 48)
      else if charBetween 'A' 'Z' c then acc * 100 + (c.toNat - 55)
      else acc)
    0
  let check := 98 - n % 97
  (if check < 10 then "0" else "") ++ toString check

/-- Base-36 digit value (`0-9`, `a-z`, `A-Z`), as bn.js parses it. -/
def base36DigitVal (c : Char) : Nat :=
  if c.isDigit then c.toNat - 48
  else if charBetween 'a' 'z' c then c.toNat - 87
  else if charBetween 'A' 'Z' c then c.toNat - 55
  else 0

/-- bn.js base-36 parse. -/
def base36ToNat (l : List Char) : Nat :=
  l.foldl (fun acc c => acc * 36 + base36DigitVal c) 0

/-- Hex digits, most significant first, with explicit recursion fuel
(`n + 1` suffices: `n / 16` strictly decreases). -/
def natToHexAux : Nat → Nat → List Char
  | 0, _ => []
  | fuel + 1, n =>
    if n < 16 then [Nat.digitChar n]
    else natToHexAux fuel (n / 16) ++ [Nat.digitChar (n % 16)]

/-- bn.js `toString(16)`: minimal lower-case hex, `"0"` for zero. -/
def natToHex (n : Nat) : List Char :=
  natToHexAux (n + 1) n

/-- The `0x` prefix added when missing (`address = "0x" + address`). -/
def withHexPrefix (address : String) : String :=
  if startsWith0x address.data then address else "0x" ++ address

/-- ethers v5 `getAddress`; `none` models a throw. -/
def getAddress (address : String) : Option String :=
  if hexAddrShape address then
    -- missing 0x prefix is added before checksumming
    let address' := withHexPrefix address
    match getChecksumAddress address' with
    | none => none
    | some result =>
      -- if the (prefixed) address is mixed-case, its checksum must already match
      if isMixedCaseHex address' && result ≠ address' then none else some result
  else if icapShape address then
    if (⟨(address.data.drop 2).take 2⟩ : String) ≠ ibanChecksum address then none
    else
      let hx := natToHex (base36ToNat (address.data.drop 4))
      let padded := List.replicate (40 - hx.length) '0' ++ hx
      getChecksumAddress ⟨'0' :: 'x' :: padded⟩
  else none

/-- The `{valid: boolean, address: string}` result of
`Scraper.isValidAddress`. -/
structure ValidationResult where
  valid : Bool
  address : String
deriving Repr, DecidableEq

/-- Models `Scraper.isValidAddress` (scraper.ts lines 124–136): try
`ethers.utils.getAddress`; on success report valid with the checksummed
address, on a throw report invalid with the original string. -/
def isValidAddress (address : String) : ValidationResult :=
  match getAddress address with
  | some addr => { valid := true, address := addr }
  | none => { valid := false, address := address }

/-! ## The Resolver phase: `Scraper.convertENS` (scraper.ts lines 141–168)

The RPC resolver is modelled as a function returning `Except`:
`.ok (some a)` is a successful resolution, `.ok none` is `resolveName`
returning `null` (no registered address), and `.error e` is a rejected
promise (e.g. a network failure), which — having no `try`/`catch` around it
in the source — propagates out of `convertENS`. -/

/-- Models `String.prototype.includes`. -/
def containsSub (l pat : List Char) : Bool :=
  match l with
  | [] => pat.isEmpty
  | _ :: t => pat.isPrefixOf l || containsSub t pat

/-- The test `address.includes(".eth")` (scraper.ts line 149). -/
def includesDotEth (s : String) : Bool :=
  containsSub s.data ".eth".data

/-- Models `Scraper.convertENS`: for each collected candidate, lower-case it; a
candidate containing `.eth` is looked up via the resolver and kept only if
a result comes back; any other candidate is kept (checksummed) only if
`isValidAddress` accepts it. A resolver rejection propagates. -/
def convertENS (resolveName : String → Except String (Option String)) :
    List String → Except String (List String)
  | [] => .ok []
  | a :: rest =>
    let address := jsToLower a
    if includesDotEth address then
      match resolveName address with
      | .error e => .error e
      | .ok (some parsed) => (convertENS resolveName rest).map (parsed :: ·)
      | .ok none => convertENS resolveName rest
    else
      let r := isValidAddress address
      if r.valid then (convertENS resolveName rest).map (r.address :: ·)
      else convertENS resolveName rest

/-! ## The Batch Writer: `Scraper.outputAddresses` (scraper.ts lines 174–192)

The filesystem is a map from file name to file content;
`fs.appendFileSync` appends to the named file. -/

def FS : Type := String → String

/-- A filesystem with no files (every file reads as empty). -/
def emptyFS : FS := fun _ => ""

/-- Models `fs.appendFileSync(name, content)`. -/
def appendFile (fs : FS) (name content : String) : FS :=
  fun n => if n = name then fs name ++ content else fs n

/-- The file path `` `${outputDir}/batch-${fileNumber}.txt` `` with
`outputDir = "./output"`. -/
def batchFileName (k : Nat) : String :=
  "./output/batch-" ++ toString k ++ ".txt"

/-- The `number` values the program manipulates: either NaN (what
`Number(undefined)` yields) or an integer. -/
inductive JSNum where
  | nan : JSNum
  | int : Int → JSNum
deriving Repr, DecidableEq

/-- JS string interpolation of a number. -/
def jsNumToString : JSNum → String
  | .nan => "NaN"
  | .int n => toString n

/-- The line `` `${this.addresses[i]}, ${this.numTokens}\n` ``. -/
def batchLine (address : String) (numTokens : JSNum) : String :=
  address ++ ", " ++ jsNumToString numTokens ++ "\n"

/-- Models `Scraper.outputAddresses`: for each index `i`, append the batch line to
`batch-⌊i/100⌋.txt`, in index order. (Directory creation has no effect on
the file map.) -/
def outputAddresses (addresses : List String) (numTokens : JSNum) (fs : FS) : FS :=
  addresses.enum.foldl
    (fun f ia => appendFile f (batchFileName (ia.1 / 100)) (batchLine ia.2 numTokens))
    fs

/-! ## The Accumulate phase and `Scraper.scrape`
(scraper.ts lines 68–89 and 197–216)

A run's interaction with the Twitter API is modelled by the sequence of
responses the API returns, one per fetch: a rejected request (`.error`)
propagates, a page's tweets are appended, and a present `next_token`
triggers the next fetch. -/

/-- One page of the Twitter recent-search response. -/
structure Page where
  data : List Tweet
  next_token : Option String
deriving Repr, DecidableEq

/-- Models `Scraper.collectTweets` driven by the response sequence. An exhausted
sequence (the model has no further response although a `next_token` was
present) is reported as an error. -/
def collectTweets : List (Except String Page) → Except String (List Tweet)
  | [] => .error "no response"
  | .error e :: _ => .error e
  | .ok page :: rest =>
    match page.next_token with
    | none => .ok page.data
    | some _ => (collectTweets rest).map (page.data ++ ·)

/-- Models `Scraper.scrape`: collect all tweets (a fetch failure aborts), extract
candidates, resolve/validate them only when an RPC resolver is configured
(a resolver failure aborts), and finally write the batches. The returned
pair is the run's outcome (the final address list, or the propagated error)
and the resulting filesystem — unchanged unless `outputAddresses` ran. -/
def scrape (resolveName : Option (String → Except String (Option String)))
    (responses : List (Except String Page)) (numTokens : JSNum) (fs : FS) :
    Except String (List String) × FS :=
  match collectTweets responses with
  | .error e => (.error e, fs)
  | .ok tweets =>
    let addresses := cleanTweetsForAddresses tweets
    match resolveName with
    | none => (.ok addresses, outputAddresses addresses numTokens fs)
    | some resolve =>
      match convertENS resolve addresses with
      | .error e => (.error e, fs)
      | .ok converted => (.ok converted, outputAddresses converted numTokens fs)

/-! ## Entry points (src/index.ts and the follower scraper) -/

/-- JS truthiness of an optional environment string: `undefined` and `""`
are falsy. -/
def truthy : Option String → Bool
  | none => false
  | some s => !s.isEmpty

/-- Models `Number(process.env.X) ?? 0` for the environment values the program
reads. `Number(undefined)` is NaN — never `undefined` — so the `?? 0`
default can never fire. `Number` of a trimmed empty string is 0; of a
decimal integer literal, that integer; other numeric literal forms
(floats, hex, exponents) do not occur in the modelled configurations and
are mapped to NaN. -/
def jsNumber : Option String → JSNum
  | none => .nan
  | some s =>
    let t := ((s.data.dropWhile Char.isWhitespace).reverse.dropWhile
      Char.isWhitespace).reverse
    let digitsVal : List Char → Int := fun ds =>
      ds.foldl (fun acc c => acc * 10 + (c.toNat - 48 : Int)) 0
    match t with
    | [] => .int 0
    | '-' :: ds =>
      if !ds.isEmpty && ds.all Char.isDigit then .int (-(digitsVal ds)) else .nan
    | '+' :: ds =>
      if !ds.isEmpty && ds.all Char.isDigit then .int (digitsVal ds) else .nan
    | ds =>
      if ds.all Char.isDigit then .int (digitsVal ds) else .nan

/-- The environment variables read by the mode-1 (thread scraping) entry
point. -/
structure Env1 where
  conversation_id : Option String
  twitter_bearer : Option String
  num_tokens : Option String
  rpc_provider : Option String

/-- The configuration a mode-1 run proceeds with. -/
structure ScraperConfig where
  conversationID : String
  twitterBearer : String
  numTokens : JSNum
  rpcConfigured : Bool
deriving Repr, DecidableEq

/-- Outcome of an entry point's startup checks: `exitFail` models
`process.exit(1)` before any scraper is constructed; `run cfg` models
proceeding to construct the scraper and `await scraper.scrape()` — i.e.
network activity follows. -/
inductive StartupOutcome (C : Type) where
  | exitFail : StartupOutcome C
  | run : C → StartupOutcome C
deriving Repr, DecidableEq

/-- The mode-1 entry point (async IIFE of src/index.ts): exit iff the
conversation id or the bearer token is missing/empty; `NUM_TOKENS` and
`RPC_PROVIDER` are not checked. The scraper's resolver is configured iff
`RPC_PROVIDER` is truthy (constructor, scraper.ts line 42). -/
def mode1Startup (env : Env1) : StartupOutcome ScraperConfig :=
  if !truthy env.conversation_id || !truthy env.twitter_bearer then .exitFail
  else
    .run
      { conversationID := env.conversation_id.getD ""
        twitterBearer := env.twitter_bearer.getD ""
        numTokens := jsNumber env.num_tokens
        rpcConfigured := truthy env.rpc_provider }

/-- The environment variables read by the mode-2 (follower scraping) entry
point. -/
structure Env2 where
  twitter_bearer : Option String
  twitter_user : Option String

/-- The mode-2 entry point (async IIFE of the follower scraper): exit iff
the bearer token or the handle is missing/empty. -/
def mode2Startup (env : Env2) : StartupOutcome (String × String) :=
  if !truthy env.twitter_bearer || !truthy env.twitter_user then .exitFail
  else .run (env.twitter_bearer.getD "", env.twitter_user.getD "")

/-- Models `Scraper.chunk` of the follower scraper: slices of `chunkSize` taken
from the front until the array is exhausted. The JS loop (`i += chunkSize`)
does not terminate for `chunkSize = 0`; callers pass 100, and the model
maps that out-of-domain case to `[]`. -/
def chunk (array : List α) (chunkSize : Nat) : List (List α) :=
  if _h : chunkSize = 0 then []
  else
    match array with
    | [] => []
    | a :: rest =>
      (a :: rest).take chunkSize :: chunk ((a :: rest).drop chunkSize) chunkSize
termination_by array.length
decreasing_by simp only [List.length_drop, List.length_cons]; omega

/-! ## Spec-side definitions, for comparison with the embedded code

These two follow the specification's words, not the source, and exist only
to be compared with the source-derived definitions above. -/

/-- Whether a token ends in a case-insensitive `.eth` suffix with at least
one character before it. -/
def endsDotEthCI (tk : List Char) : Bool :=
  match (tk.map jsToLowerChar).reverse with
  | 'h' :: 't' :: 'e' :: '.' :: rest => !rest.isEmpty
  | _ => false

/-- Split into maximal runs of non-whitespace characters (`cur` carries the
current run, reversed). -/
def splitOnWsAux : List Char → List Char → List (List Char)
  | [], cur => if cur.isEmpty then [] else [cur.reverse]
  | c :: t, cur =>
    if c.isWhitespace then
      (if cur.isEmpty then splitOnWsAux t [] else cur.reverse :: splitOnWsAux t [])
    else splitOnWsAux t (c :: cur)

/-- The maximal whitespace-delimited runs of a character list. -/
def splitOnWs (l : List Char) : List (List Char) :=
  splitOnWsAux l []

/-- Spec §4.1: "Name-shaped pattern: a maximal run of non-whitespace
characters ending in a case-insensitive `.eth` suffix", with line breaks
stripped first and only the first such run kept. A run must have at least
one character before the suffix (the pattern names something before
`.eth`). -/
def specNameCandidate (text : String) : Option String :=
  ((splitOnWs (stripLineBreaks text.data)).find? endsDotEthCI).map (⟨·⟩)

/-- Spec §8: a "well-formed `0x...` token of length ≥ 42" starting at
position `p`: `0x` followed by at least 40 hex digits. -/
def wellFormedTokenAt (l : List Char) (p : Nat) : Bool :=
  startsWith0x (l.drop p)
    && (((l.drop p).drop 2).take 40).length = 40
    && (((l.drop p).drop 2).take 40).all isHexDigitChar

/-- Whether some position of the text starts a well-formed `0x` token of
length ≥ 42. -/
def containsWellFormed42 (l : List Char) : Bool :=
  (List.range l.length).any (wellFormedTokenAt l)

/-- Spec wording "the first 42 characters starting at that token's start". -/
def first42At (l : List Char) (p : Nat) : String :=
  ⟨(l.drop p).take 42⟩

/-! ## Helper lemmas -/

theorem string_ext {s t : String} (h : s.data = t.data) : s = t := by
  cases s; cases t; exact congrArg String.mk h

theorem string_data_append (a b : String) : (a ++ b).data = a.data ++ b.data := rfl

/-- Concatenation of a list of strings (the content a sequence of appends
leaves in one file). -/
def joinStrings : List String → String
  | [] => ""
  | s :: t => s ++ joinStrings t

theorem joinStrings_append (a b : List String) :
    joinStrings (a ++ b) = joinStrings a ++ joinStrings b := by
  induction a with
  | nil => apply string_ext; simp [joinStrings, string_data_append]
  | cons s t ih =>
    apply string_ext
    simp [joinStrings, string_data_append, congrArg String.data ih]

theorem joinStrings_eq_empty_iff (ls : List String) :
    joinStrings ls = "" ↔ ∀ s ∈ ls, s = "" := by
  induction ls with
  | nil => simp [joinStrings]
  | cons s t ih =>
    simp only [joinStrings, List.mem_cons]
    constructor
    · intro h
      have hd : s.data ++ (joinStrings t).data = [] := by
        have := congrArg String.data h
        simpa [string_data_append] using this
      have hs : s.data = [] := by
        rcases List.append_eq_nil.mp hd with ⟨h1, _⟩; exact h1
      have ht : (joinStrings t).data = [] := by
        rcases List.append_eq_nil.mp hd with ⟨_, h2⟩; exact h2
      refine fun x hx => ?_
      rcases hx with rfl | hx
      · exact string_ext (by simpa using hs)
      · exact ih.mp (string_ext (by simpa using ht)) x hx
    · intro h
      have hs : s = "" := h s (Or.inl rfl)
      have ht : joinStrings t = "" := ih.mpr fun x hx => h x (Or.inr hx)
      apply string_ext
      simp [string_data_append, congrArg String.data hs, congrArg String.data ht]

/-! Decimal digits of a `Nat` and injectivity of `Nat.repr`, needed to tell
the batch file names apart. -/

/-- The decimal digit characters of `n`, most significant first. -/
def decDigits (n : Nat) : List Char :=
  if _h : n < 10 then [Nat.digitChar n]
  else decDigits (n / 10) ++ [Nat.digitChar (n % 10)]
termination_by n
decreasing_by exact Nat.div_lt_self (by omega) (by omega)

theorem decDigits_lt {n : Nat} (h : n < 10) : decDigits n = [Nat.digitChar n] := by
  rw [decDigits]; simp [h]

theorem decDigits_ge {n : Nat} (h : ¬ n < 10) :
    decDigits n = decDigits (n / 10) ++ [Nat.digitChar (n % 10)] := by
  conv_lhs => rw [decDigits]
  simp [h]

theorem toDigitsCore_eq_decDigits :
    ∀ (fuel n : Nat) (acc : List Char), n < fuel →
      Nat.toDigitsCore 10 fuel n acc = decDigits n ++ acc := by
  intro fuel
  induction fuel with
  | zero => intro n acc h; omega
  | succ f ih =>
    intro n acc h
    rw [Nat.toDigitsCore]
    by_cases h10 : n / 10 = 0
    · have hn : n < 10 := by omega
      simp only [h10, if_true]
      rw [decDigits_lt hn, Nat.mod_eq_of_lt hn]
      simp
    · have hn : ¬ n < 10 := by omega
      simp only [h10, if_false]
      have hlt : n / 10 < f := by
        have : n / 10 < n := Nat.div_lt_self (by omega) (by omega)
        omega
      rw [ih (n / 10) _ hlt, decDigits_ge hn]
      simp

theorem nat_repr_eq_decDigits (n : Nat) : Nat.repr n = ⟨decDigits n⟩ := by
  have h := toDigitsCore_eq_decDigits (n + 1) n [] (Nat.lt_succ_self n)
  simp only [Nat.repr, Nat.toDigits, h, List.append_nil]
  rfl

theorem digitChar_inj_below10 :
    ∀ a : Nat, a < 10 → ∀ b : Nat, b < 10 → Nat.digitChar a = Nat.digitChar b → a = b := by
  decide

theorem decDigits_ne_nil (n : Nat) : decDigits n ≠ [] := by
  by_cases h : n < 10
  · rw [decDigits_lt h]; simp
  · rw [decDigits_ge h]; simp

theorem decDigits_inj : ∀ m n : Nat, decDigits m = decDigits n → m = n := by
  intro m
  induction m using Nat.strong_induction_on with
  | _ m ih =>
    intro n h
    by_cases hm : m < 10 <;> by_cases hn : n < 10
    · rw [decDigits_lt hm, decDigits_lt hn] at h
      exact digitChar_inj_below10 m hm n hn (by simpa using h)
    · exfalso
      rw [decDigits_lt hm, decDigits_ge hn] at h
      have hlen := congrArg List.length h
      simp only [List.length_cons, List.length_nil, List.length_append] at hlen
      exact decDigits_ne_nil (n / 10) (List.length_eq_zero.mp (by omega))
    · exfalso
      rw [decDigits_ge hm, decDigits_lt hn] at h
      have hlen := congrArg List.length h
      simp only [List.length_cons, List.length_nil, List.length_append] at hlen
      exact decDigits_ne_nil (m / 10) (List.length_eq_zero.mp (by omega))
    · rw [decDigits_ge hm, decDigits_ge hn] at h
      have hparts := List.append_inj' h (by simp)
      have hdiv : m / 10 = n / 10 :=
        ih (m / 10) (Nat.div_lt_self (by omega) (by omega)) (n / 10) hparts.1
      have hmod : m % 10 = n % 10 := by
        have h2 := hparts.2
        simp only [List.cons.injEq] at h2
        exact digitChar_inj_below10 (m % 10) (Nat.mod_lt _ (by omega)) (n % 10)
          (Nat.mod_lt _ (by omega)) h2.1
      omega

theorem nat_repr_inj {m n : Nat} (h : Nat.repr m = Nat.repr n) : m = n := by
  rw [nat_repr_eq_decDigits, nat_repr_eq_decDigits] at h
  exact decDigits_inj m n (congrArg String.data h)

theorem batchFileName_inj {j k : Nat} (h : batchFileName j = batchFileName k) : j = k := by
  have hd := congrArg String.data h
  simp only [batchFileName, string_data_append] at hd
  rw [List.append_assoc, List.append_assoc] at hd
  have h1 := List.append_cancel_left hd
  have h2 := List.append_cancel_right h1
  exact nat_repr_inj (string_ext h2)

/-! The content a sequence of file appends leaves behind. -/

/-- Apply a list of `(file, content)` appends in order. -/
def applyWrites (ws : List (String × String)) (fs : FS) : FS :=
  ws.foldl (fun f w => appendFile f w.1 w.2) fs

theorem applyWrites_content :
    ∀ (ws : List (String × String)) (fs : FS) (name : String),
      applyWrites ws fs name
        = fs name ++ joinStrings ((ws.filter (fun w => w.1 = name)).map Prod.snd) := by
  intro ws
  induction ws with
  | nil =>
    intro fs name
    apply string_ext
    simp [applyWrites, joinStrings, string_data_append]
  | cons w t ih =>
    intro fs name
    simp only [applyWrites, List.foldl_cons] at *
    rw [ih]
    by_cases hw : w.1 = name
    · subst hw
      have hc : (decide (w.1 = w.1)) = true := by simp
      simp only [List.filter_cons, hc, if_true, List.map_cons, joinStrings]
      apply string_ext
      simp [appendFile, string_data_append, joinStrings]
    · have hc : (decide (w.1 = name)) = false := by simpa using hw
      simp only [List.filter_cons, hc, Bool.false_eq_true, if_false]
      congr 1
      have hw' : ¬ name = w.1 := fun hh => hw hh.symm
      simp [appendFile, hw']

theorem outputAddresses_eq_applyWrites (addrs : List String) (A : JSNum) (fs : FS) :
    outputAddresses addrs A fs
      = applyWrites
          (addrs.enum.map fun ia => (batchFileName (ia.1 / 100), batchLine ia.2 A)) fs := by
  simp [outputAddresses, applyWrites, List.foldl_map]

/-- Selecting the entries of an index window out of an enumerated list
yields the corresponding slice. -/
theorem enumFrom_filter_window :
    ∀ (l : List String) (n lo hi : Nat),
      ((List.enumFrom n l).filter fun ia => decide (lo ≤ ia.1) && decide (ia.1 < hi)).map
          Prod.snd
        = (l.drop (lo - n)).take (hi - max lo n) := by
  intro l
  induction l with
  | nil => intro n lo hi; simp
  | cons a t ih =>
    intro n lo hi
    simp only [List.enumFrom, List.filter_cons, List.map_cons]
    by_cases h1 : lo ≤ n
    · by_cases h2 : n < hi
      · have hc : (decide (lo ≤ n) && decide (n < hi)) = true := by simp [h1, h2]
        simp only [hc, if_true, List.map_cons]
        rw [ih (n + 1) lo hi]
        have e1 : lo - n = 0 := by omega
        have e2 : lo - (n + 1) = 0 := by omega
        have e3 : max lo n = n := by omega
        have e4 : max lo (n + 1) = n + 1 := by omega
        rw [e1, e2, e3, e4]
        simp only [List.drop_zero, List.take_succ_cons]
        have e5 : hi - n = (hi - (n + 1)) + 1 := by omega
        rw [e5]
        simp
      · have hc : (decide (lo ≤ n) && decide (n < hi)) = false := by simp [h2]
        simp only [hc, Bool.false_eq_true, if_false]
        rw [ih (n + 1) lo hi]
        have e2 : lo - (n + 1) = 0 := by omega
        have e4 : hi - max lo (n + 1) = 0 := by omega
        have e5 : hi - max lo n = 0 := by omega
        have e1 : lo - n = 0 := by omega
        rw [e1, e2, e4, e5]
        simp
    · have hc : (decide (lo ≤ n) && decide (n < hi)) = false := by simp [h1]
      simp only [hc, Bool.false_eq_true, if_false]
      rw [ih (n + 1) lo hi]
      have e3 : max lo n = lo := by omega
      have e4 : max lo (n + 1) = lo := by omega
      rw [e3, e4]
      have e5 : lo - n = (lo - (n + 1)) + 1 := by omega
      rw [e5]
      simp

/-! Equation lemmas for `chunk`. -/

theorem chunk_nil (s : Nat) : chunk ([] : List α) s = [] := by
  rw [chunk]; split <;> rfl

theorem chunk_cons (a : α) (t : List α) (s : Nat) (hs : s ≠ 0) :
    chunk (a :: t) s = (a :: t).take s :: chunk ((a :: t).drop s) s := by
  rw [chunk]; simp [hs]

theorem chunk_eq_nil_iff (l : List α) (s : Nat) (hs : s ≠ 0) :
    chunk l s = [] ↔ l = [] := by
  cases l with
  | nil => simp [chunk_nil]
  | cons a t => simp [chunk_cons a t s hs]

theorem chunk_flatten_aux (s : Nat) (hs : 0 < s) :
    ∀ (n : Nat) (l : List α), l.length ≤ n → (chunk l s).flatten = l := by
  intro n
  induction n with
  | zero =>
    intro l hl
    have : l = [] := List.length_eq_zero.mp (by omega)
    subst this
    simp [chunk_nil]
  | succ n ih =>
    intro l hl
    cases l with
    | nil => simp [chunk_nil]
    | cons a t =>
      have hlc : (a :: t).length = t.length + 1 := rfl
      rw [chunk_cons a t s (by omega)]
      simp only [List.flatten_cons]
      rw [ih ((a :: t).drop s) (by simp only [List.length_drop]; omega)]
      simp

theorem chunk_dropLast_aux (s : Nat) (hs : 0 < s) :
    ∀ (n : Nat) (l : List α), l.length ≤ n →
      ∀ c ∈ (chunk l s).dropLast, c.length = s := by
  intro n
  induction n with
  | zero =>
    intro l hl
    have : l = [] := List.length_eq_zero.mp (by omega)
    subst this
    simp [chunk_nil]
  | succ n ih =>
    intro l hl c hc
    cases l with
    | nil => simp [chunk_nil] at hc
    | cons a t =>
      have hlc : (a :: t).length = t.length + 1 := rfl
      rw [chunk_cons a t s (by omega)] at hc
      cases hrest : chunk ((a :: t).drop s) s with
      | nil => rw [hrest] at hc; simp at hc
      | cons r rs =>
        rw [hrest] at hc
        rw [List.dropLast_cons_of_ne_nil (by simp)] at hc
        rcases List.mem_cons.mp hc with rfl | hc'
        · -- the head slice is full: the remaining chunks are nonempty
          have hdrop : (a :: t).drop s ≠ [] := by
            intro hd
            rw [hd, chunk_nil] at hrest
            exact absurd hrest (by simp)
          have hlen : s < (a :: t).length := by
            by_contra hle
            exact hdrop (List.drop_eq_nil_of_le (by omega))
          simp only [List.length_take]
          omega
        · exact ih ((a :: t).drop s) (by simp only [List.length_drop]; omega) c
            (hrest ▸ hc')

theorem chunk_getLast_aux (s : Nat) (hs : 0 < s) :
    ∀ (n : Nat) (l : List α), l.length ≤ n →
      ∀ c, (chunk l s).getLast? = some c → 1 ≤ c.length ∧ c.length ≤ s := by
  intro n
  induction n with
  | zero =>
    intro l hl c hc
    have : l = [] := List.length_eq_zero.mp (by omega)
    subst this
    rw [chunk_nil] at hc
    simp at hc
  | succ n ih =>
    intro l hl c hc
    cases l with
    | nil => rw [chunk_nil] at hc; simp at hc
    | cons a t =>
      have hlc : (a :: t).length = t.length + 1 := rfl
      rw [chunk_cons a t s (by omega)] at hc
      cases hrest : chunk ((a :: t).drop s) s with
      | nil =>
        rw [hrest, List.getLast?_singleton] at hc
        have hc' : (a :: t).take s = c := by simpa using hc
        have hdrop : (a :: t).drop s = [] := (chunk_eq_nil_iff _ s (by omega)).mp hrest
        have hle : (a :: t).length ≤ s := by
          by_contra hgt
          have hne : (a :: t).drop s ≠ [] := by
            intro hd
            have := congrArg List.length hd
            simp only [List.length_drop, List.length_nil] at this
            omega
          exact hne hdrop
        subst hc'
        refine ⟨?_, ?_⟩ <;> simp only [List.length_take] <;> omega
      | cons r rs =>
        rw [hrest, List.getLast?_cons_cons] at hc
        exact ih ((a :: t).drop s) (by simp only [List.length_drop]; omega) c
          (hrest ▸ hc)

/-! Content of batch files. -/

theorem empty_string_append (s : String) : "" ++ s = s := by
  apply string_ext; simp [string_data_append]

theorem batchLine_ne_empty (a : String) (A : JSNum) : batchLine a A ≠ "" := by
  intro h
  have hd := congrArg String.data h
  simp only [batchLine, string_data_append] at hd
  have := congrArg List.length hd
  simp at this

theorem outputAddresses_batch_content (addrs : List String) (A : JSNum) (fs : FS) (k : Nat) :
    outputAddresses addrs A fs (batchFileName k)
      = fs (batchFileName k)
        ++ joinStrings (((addrs.drop (100 * k)).take 100).map (batchLine · A)) := by
  rw [outputAddresses_eq_applyWrites, applyWrites_content]
  congr 2
  have hfilter :
      ((addrs.enum.map fun ia => (batchFileName (ia.1 / 100), batchLine ia.2 A)).filter
          fun w => w.1 = batchFileName k)
        = (addrs.enum.filter fun ia =>
            decide (100 * k ≤ ia.1) && decide (ia.1 < 100 * k + 100)).map
            fun ia => (batchFileName (ia.1 / 100), batchLine ia.2 A) := by
    rw [List.filter_map]
    congr 1
    apply List.filter_congr
    intro ia _
    by_cases h : ia.1 / 100 = k
    · have h1 : 100 * k ≤ ia.1 := by omega
      have h2 : ia.1 < 100 * k + 100 := by omega
      simp [Function.comp, h, h1, h2]
    · have hne : batchFileName (ia.1 / 100) ≠ batchFileName k :=
        fun hEq => h (batchFileName_inj hEq)
      have : ¬ (100 * k ≤ ia.1 ∧ ia.1 < 100 * k + 100) := by omega
      rcases Decidable.not_and_iff_or_not.mp this with h1 | h2
      · simp [Function.comp, hne, h1]
      · simp [Function.comp, hne, h2]
  rw [hfilter, List.map_map]
  have hwin := enumFrom_filter_window addrs 0 (100 * k) (100 * k + 100)
  have henum : addrs.enum = List.enumFrom 0 addrs := rfl
  have hmax : max (100 * k) 0 = 100 * k := by omega
  have hsub1 : 100 * k - 0 = 100 * k := by omega
  have hsub2 : 100 * k + 100 - 100 * k = 100 := by omega
  rw [hmax, hsub1, hsub2] at hwin
  calc ((addrs.enum.filter fun ia =>
          decide (100 * k ≤ ia.1) && decide (ia.1 < 100 * k + 100)).map
          ((fun w => w.2) ∘ fun ia => (batchFileName (ia.1 / 100), batchLine ia.2 A)))
      = ((addrs.enum.filter fun ia =>
          decide (100 * k ≤ ia.1) && decide (ia.1 < 100 * k + 100)).map
          Prod.snd).map (batchLine · A) := by
        rw [List.map_map]
        rfl
    _ = ((addrs.drop (100 * k)).take 100).map (batchLine · A) := by
        rw [henum, hwin]

theorem outputAddresses_other_content (addrs : List String) (A : JSNum) (fs : FS)
    (name : String) (hname : ∀ k, name ≠ batchFileName k) :
    outputAddresses addrs A fs name = fs name := by
  rw [outputAddresses_eq_applyWrites, applyWrites_content]
  have hfilter :
      ((addrs.enum.map fun ia => (batchFileName (ia.1 / 100), batchLine ia.2 A)).filter
          fun w => w.1 = name) = [] := by
    rw [List.filter_eq_nil_iff]
    intro w hw
    rcases List.mem_map.mp hw with ⟨ia, _, rfl⟩
    simp only [decide_eq_true_eq]
    exact fun hEq => hname (ia.1 / 100) hEq.symm
  rw [hfilter]
  apply string_ext
  simp [joinStrings, string_data_append]

/-! ## The claims -/

/-- Claim C10 — For every array and every chunk size `s > 0`, the follower
scraper's `chunk` function returns consecutive slices whose concatenation
equals the original array in order; every slice except possibly the last
has length exactly `s`, the last has length between 1 and `s`, and the
empty array yields no chunks. -/
theorem chunk_partitions {α : Type} (l : List α) (s : Nat) (hs : 0 < s) :
    (chunk l s).flatten = l
    ∧ (∀ c ∈ (chunk l s).dropLast, c.length = s)
    ∧ (∀ c, (chunk l s).getLast? = some c → 1 ≤ c.length ∧ c.length ≤ s)
    ∧ chunk ([] : List α) s = [] :=
  ⟨chunk_flatten_aux s hs l.length l (le_refl _),
   chunk_dropLast_aux s hs l.length l (le_refl _),
   chunk_getLast_aux s hs l.length l (le_refl _),
   chunk_nil s⟩

/-- Witness for C10 at a concrete array and chunk size. -/
theorem chunk_partitions_witness :
    (0 : Nat) < 2
    ∧ (chunk [10, 20, 30, 40, 50] 2).flatten = [10, 20, 30, 40, 50] :=
  ⟨by decide, (chunk_partitions [10, 20, 30, 40, 50] 2 (by decide)).1⟩

/-- Claim C3 — For every final address list of length N > 0 written into an
initially empty output directory with per-address amount A, the Batch
Writer produces ⌈N/100⌉ files named `batch-<n>.txt` (0-indexed); the entry
at global position i is written to file ⌊i/100⌋; every file except the
last contains exactly 100 lines and the last contains N mod 100 lines
(100 when N is a multiple of 100); each line is exactly
`<address>, <amount>` followed by a newline, in discovery order.

The first conjunct states that file k holds, in order, exactly the lines
`<address>, <amount>\n` of the addresses at global positions
100k … 100k+99 (so position i lands in file ⌊i/100⌋); the remaining
conjuncts give the file count (files are non-empty exactly for
k < ⌈N/100⌉, and nothing outside the batch files is written) and the
per-file line counts. -/
theorem outputAddresses_batches (addrs : List String) (A : JSNum)
    (hN : 0 < addrs.length) :
    (∀ k, outputAddresses addrs A emptyFS (batchFileName k)
        = joinStrings (((addrs.drop (100 * k)).take 100).map (batchLine · A)))
    ∧ (∀ k, outputAddresses addrs A emptyFS (batchFileName k) ≠ "" ↔
        k < (addrs.length + 99) / 100)
    ∧ (∀ k, k + 1 < (addrs.length + 99) / 100 →
        (((addrs.drop (100 * k)).take 100).map (batchLine · A)).length = 100)
    ∧ (((addrs.drop (100 * ((addrs.length + 99) / 100 - 1))).take 100).map
          (batchLine · A)).length
        = (if addrs.length % 100 = 0 then 100 else addrs.length % 100)
    ∧ (∀ name, (∀ k, name ≠ batchFileName k) →
        outputAddresses addrs A emptyFS name = "") := by
  have hcontent : ∀ k, outputAddresses addrs A emptyFS (batchFileName k)
      = joinStrings (((addrs.drop (100 * k)).take 100).map (batchLine · A)) := by
    intro k
    rw [outputAddresses_batch_content addrs A emptyFS k]
    show "" ++ _ = _
    rw [empty_string_append]
  refine ⟨hcontent, ?_, ?_, ?_, ?_⟩
  · intro k
    rw [hcontent k]
    constructor
    · intro hne
      by_contra hk
      have hdrop : addrs.drop (100 * k) = [] :=
        List.drop_eq_nil_of_le (by omega)
      rw [hdrop] at hne
      simp [joinStrings] at hne
    · intro hk
      have hlen : ((addrs.drop (100 * k)).take 100).length = min 100 (addrs.length - 100 * k) := by
        simp
      have hpos : 0 < ((addrs.drop (100 * k)).take 100).length := by omega
      cases hsl : (addrs.drop (100 * k)).take 100 with
      | nil => rw [hsl] at hpos; simp at hpos
      | cons a rest =>
        simp only [List.map_cons, joinStrings]
        intro hEq
        have hd := congrArg String.data hEq
        simp only [string_data_append] at hd
        have := congrArg List.length hd
        simp only [List.length_append, List.length_nil] at this
        have hline := batchLine_ne_empty a A
        have : (batchLine a A).data = [] := List.length_eq_zero.mp (by omega)
        exact hline (string_ext (by simpa using this))
  · intro k hk
    simp only [List.length_map, List.length_take, List.length_drop]
    omega
  · simp only [List.length_map, List.length_take, List.length_drop]
    by_cases h : addrs.length % 100 = 0 <;> simp [h] <;> omega
  · intro name hname
    rw [outputAddresses_other_content addrs A emptyFS name hname]
    rfl

/-- Witness for C3: three addresses, amount 7, all land in `batch-0.txt`
in discovery order. -/
theorem outputAddresses_batches_witness :
    (0 : Nat) < ([ "0xA", "0xB", "0xC" ] : List String).length
    ∧ outputAddresses ["0xA", "0xB", "0xC"] (.int 7) emptyFS (batchFileName 0)
        = "0xA, 7\n0xB, 7\n0xC, 7\n" := by
  refine ⟨by decide, ?_⟩
  rw [(outputAddresses_batches ["0xA", "0xB", "0xC"] (.int 7) (by decide)).1 0]
  decide

/-- Claim C1 (counterexample) — The claim says that with no RPC endpoint,
name-shaped candidates are excluded from the final address list and never
appear in any written batch. On the spec's own scenario-B input the code
does the opposite: with `rpc` unset, `scrape` skips `convertENS` entirely
(scraper.ts line 207 guards it), so the raw candidate `Vitalik.ETH` stays
in the final list and is written verbatim to `batch-0.txt`. -/
theorem scrape_noRpc_name_written_counterexample :
    (scrape none
        [.ok { data := [{ id := "1", text := "my name is Vitalik.ETH friend" }],
               next_token := none }]
        (.int 1) emptyFS).1 = .ok ["Vitalik.ETH"]
    ∧ (scrape none
        [.ok { data := [{ id := "1", text := "my name is Vitalik.ETH friend" }],
               next_token := none }]
        (.int 1) emptyFS).2 (batchFileName 0) = "Vitalik.ETH, 1\n" :=
  ⟨rfl, rfl⟩

/-- Claim C1 (amended) — If no resolution endpoint is configured, the whole
resolve/validate phase is skipped: the pipeline completes without error
and the raw candidate list — name-shaped candidates included, nothing
validated — is passed through unchanged as the final address list and
written to the batches. -/
theorem scrape_noRpc_passthrough (responses : List (Except String Page))
    (tweets : List Tweet) (A : JSNum) (fs : FS)
    (h : collectTweets responses = .ok tweets) :
    scrape none responses A fs
      = (.ok (cleanTweetsForAddresses tweets),
         outputAddresses (cleanTweetsForAddresses tweets) A fs) := by
  simp [scrape, h]

/-- Witness for the amended C1 at the scenario-B input. -/
theorem scrape_noRpc_passthrough_witness :
    collectTweets
        [.ok { data := [{ id := "1", text := "my name is Vitalik.ETH friend" }],
               next_token := none }]
      = .ok [{ id := "1", text := "my name is Vitalik.ETH friend" }]
    ∧ scrape none
        [.ok { data := [{ id := "1", text := "my name is Vitalik.ETH friend" }],
               next_token := none }]
        (.int 1) emptyFS
      = (.ok (cleanTweetsForAddresses
            [{ id := "1", text := "my name is Vitalik.ETH friend" }]),
         outputAddresses
           (cleanTweetsForAddresses
             [{ id := "1", text := "my name is Vitalik.ETH friend" }])
           (.int 1) emptyFS) :=
  ⟨rfl,
   scrape_noRpc_passthrough _ _ (.int 1) emptyFS rfl⟩

/-- Claim C7 — If any page fetch during the Accumulate phase fails, the whole
run aborts with that error and the filesystem is returned exactly as it
was: no batch file is written for the partially accumulated results. -/
theorem scrape_fetch_failure_aborts
    (resolver : Option (String → Except String (Option String)))
    (responses : List (Except String Page)) (A : JSNum) (fs : FS) (e : String)
    (h : collectTweets responses = .error e) :
    scrape resolver responses A fs = (.error e, fs) := by
  simp [scrape, h]

/-- Witness for C7: the first page succeeds with a pagination token, the
second fetch fails; nothing is persisted. -/
theorem scrape_fetch_failure_aborts_witness :
    collectTweets
        [.ok { data := [{ id := "1", text := "gm 0xAB" }], next_token := some "tok" },
         .error "HTTP 429"]
      = .error "HTTP 429"
    ∧ scrape none
        [.ok { data := [{ id := "1", text := "gm 0xAB" }], next_token := some "tok" },
         .error "HTTP 429"]
        (.int 1) emptyFS
      = (.error "HTTP 429", emptyFS) :=
  ⟨rfl, scrape_fetch_failure_aborts none _ (.int 1) emptyFS "HTTP 429" rfl⟩

/-- Claim C4 (counterexample) — The claim says a lookup that errors (e.g. a
network failure) never aborts the pipeline. But `convertENS` has no
`try`/`catch` around `this.rpc?.resolveName` (scraper.ts line 151), so a
rejected lookup propagates out of `scrape`: with a resolver that fails,
the run aborts with the resolver's error and the remaining candidate list
is never processed or written. -/
theorem scrape_resolver_error_aborts_counterexample :
    scrape (some fun _ => .error "network failure")
        [.ok { data := [{ id := "1", text := "gm alice.eth" }], next_token := none }]
        (.int 1) emptyFS
      = (.error "network failure", emptyFS) := rfl

/-- Claim C4 (amended) — A lookup that finds no registered address
(`resolveName` returns null) never aborts the pipeline: the candidate is
dropped and the remaining candidates are processed as if it were absent.
A lookup that throws (e.g. a network failure), however, propagates and
aborts `convertENS` (and with it the run). -/
theorem convertENS_miss_drops_error_aborts
    (resolve : String → Except String (Option String)) (nm : String)
    (rest : List String) (hname : includesDotEth (jsToLower nm) = true) :
    (resolve (jsToLower nm) = .ok none →
      convertENS resolve (nm :: rest) = convertENS resolve rest)
    ∧ (∀ e, resolve (jsToLower nm) = .error e →
      convertENS resolve (nm :: rest) = .error e) := by
  constructor
  · intro h
    simp [convertENS, hname, h]
  · intro e h
    simp [convertENS, hname, h]

/-- Witness for the amended C4: an unregistered name is dropped and
processing continues to the rest of the list. -/
theorem convertENS_miss_drops_error_aborts_witness :
    includesDotEth (jsToLower "Alice.ETH") = true
    ∧ (fun (_ : String) => (.ok none : Except String (Option String)))
        (jsToLower "Alice.ETH") = .ok none
    ∧ convertENS (fun _ => .ok none) ["Alice.ETH", "bob.eth"]
        = convertENS (fun _ => .ok none) ["bob.eth"] :=
  ⟨by decide, rfl,
   (convertENS_miss_drops_error_aborts (fun _ => .ok none) "Alice.ETH" ["bob.eth"]
      (by decide)).1 rfl⟩

/-- Claim C5 (counterexample) — The claim says every missing required
configuration value — including the distribution amount — terminates the
program before any network activity. But the mode-1 entry point only
checks the conversation id and the bearer token; with `NUM_TOKENS` unset
it proceeds to construct the scraper and run it (network activity), with
`Number(undefined) = NaN` as the amount (the `?? 0` default can never
fire, since `Number` never returns `undefined`). -/
theorem mode1Startup_missing_amount_counterexample :
    mode1Startup
        { conversation_id := some "1428089265641201665",
          twitter_bearer := some "token",
          num_tokens := none,
          rpc_provider := none }
      = .run { conversationID := "1428089265641201665", twitterBearer := "token",
               numTokens := .nan, rpcConfigured := false } := rfl

/-- Claim C5 (amended) — A missing (or empty) conversation id or bearer token
in mode 1, and a missing (or empty) bearer token or handle in mode 2,
terminate the program before any network activity; the distribution amount
is NOT checked: a mode-1 run proceeds with `Number(NUM_TOKENS)` as the
amount, which is NaN when the variable is missing. -/
theorem startup_checks (env1 : Env1) (env2 : Env2) :
    (mode1Startup env1 = .exitFail ↔
      ¬(truthy env1.conversation_id = true ∧ truthy env1.twitter_bearer = true))
    ∧ (∀ cfg, mode1Startup env1 = .run cfg →
        cfg.numTokens = jsNumber env1.num_tokens)
    ∧ jsNumber none = .nan
    ∧ (mode2Startup env2 = .exitFail ↔
      ¬(truthy env2.twitter_bearer = true ∧ truthy env2.twitter_user = true)) := by
  refine ⟨?_, ?_, rfl, ?_⟩
  · by_cases h1 : truthy env1.conversation_id = true <;>
      by_cases h2 : truthy env1.twitter_bearer = true <;>
        simp [mode1Startup, h1, h2]
  · intro cfg h
    by_cases h1 : truthy env1.conversation_id = true <;>
      by_cases h2 : truthy env1.twitter_bearer = true <;>
        simp [mode1Startup, h1, h2] at h <;> simp [← h]
  · by_cases h1 : truthy env2.twitter_bearer = true <;>
      by_cases h2 : truthy env2.twitter_user = true <;>
        simp [mode2Startup, h1, h2]

/-- Witness for the amended C5: a missing bearer token exits, and a run
that passes the checks carries `Number(NUM_TOKENS)` as its amount. -/
theorem startup_checks_witness :
    mode1Startup
        { conversation_id := some "1", twitter_bearer := none,
          num_tokens := some "5", rpc_provider := none }
      = .exitFail
    ∧ ∀ cfg,
        mode1Startup
            { conversation_id := some "1", twitter_bearer := some "t",
              num_tokens := some "5", rpc_provider := none }
          = .run cfg →
        cfg.numTokens
          = jsNumber (some "5") :=
  ⟨(startup_checks
      { conversation_id := some "1", twitter_bearer := none,
        num_tokens := some "5", rpc_provider := none }
      { twitter_bearer := none, twitter_user := none }).1.mpr (by simp [truthy]),
   (startup_checks
      { conversation_id := some "1", twitter_bearer := some "t",
        num_tokens := some "5", rpc_provider := none }
      { twitter_bearer := none, twitter_user := none }).2.1⟩

/-- Claim C9 — The Validator is idempotent: for every address string already
in canonical checksummed form (a fixed point of the EIP-55
canonicalisation), `isValidAddress` returns `valid = true` with the address
field equal to the input itself. -/
theorem isValidAddress_canonical_fixed (a : String)
    (h : getChecksumAddress a = some a) :
    isValidAddress a = { valid := true, address := a } := by
  have hs : isHexString20 a = true := by
    by_contra hns
    simp only [Bool.not_eq_true] at hns
    rw [getChecksumAddress] at h
    simp [hns] at h
  have hparts := hs
  simp only [isHexString20, Bool.and_eq_true] at hparts
  have hstart : startsWith0x a.data = true := hparts.1
  have hhex : hexAddrShape a = true := by
    have h40 : (a.data.drop 2).length = 40 := of_decide_eq_true hparts.2.1
    have hlen : a.length = a.data.length := rfl
    simp only [List.length_drop] at h40
    simp [hexAddrShape, hstart, hparts.2.2]
    omega
  have hpref : withHexPrefix a = a := by
    simp [withHexPrefix, hstart]
  rw [isValidAddress, getAddress]
  simp only [hhex, if_true, hpref, h]
  simp

/-- Witness for C9 at the EIP-55 test vector. -/
theorem isValidAddress_canonical_fixed_witness :
    getChecksumAddress "0x5aAeb6053F3E94C9b9A09f33669435E7Ef1BeAed"
      = some "0x5aAeb6053F3E94C9b9A09f33669435E7Ef1BeAed"
    ∧ isValidAddress "0x5aAeb6053F3E94C9b9A09f33669435E7Ef1BeAed"
      = { valid := true, address := "0x5aAeb6053F3E94C9b9A09f33669435E7Ef1BeAed" } := by
  have h : getChecksumAddress "0x5aAeb6053F3E94C9b9A09f33669435E7Ef1BeAed"
      = some "0x5aAeb6053F3E94C9b9A09f33669435E7Ef1BeAed" := by decide
  exact ⟨h, isValidAddress_canonical_fixed _ h⟩

/-- Claim C8 (counterexample) — The claim says that on malformed input
(wrong length, non-hex characters, mismatched checksum) the Validator
returns `valid = false`. But `ethers.utils.getAddress` also accepts ICAP
addresses: the 34-character string `XE23000000000000000000000000000001` —
wrong length (neither 40 nor 42) and containing non-hex characters — is
accepted and converted, so `isValidAddress` returns `valid = true` for it. -/
theorem isValidAddress_icap_counterexample :
    ("XE23000000000000000000000000000001" : String).length = 34
    ∧ hexAddrShape "XE23000000000000000000000000000001" = false
    ∧ isHexDigitChar 'X' = false
    ∧ isValidAddress "XE23000000000000000000000000000001"
      = { valid := true, address := "0x0000000000000000000000000000000000000001" } := by
  refine ⟨rfl, rfl, rfl, ?_⟩
  decide

/-- Claim C8 (amended) — `isValidAddress` never throws (it is total, and
always returns either `valid = false` with the input unchanged or
`valid = true` with a checksummed address). On input that matches neither
the 40-hex-digit address shape (optionally `0x`-prefixed) nor the ICAP
shape, it returns `valid = false` with the original string unchanged; a
mixed-case hex input whose EIP-55 checksum does not match likewise returns
`valid = false` with the original string unchanged. -/
theorem isValidAddress_malformed_rejected (s : String) :
    (hexAddrShape s = false → icapShape s = false →
      isValidAddress s = { valid := false, address := s })
    ∧ (hexAddrShape s = true → isMixedCaseHex (withHexPrefix s) = true →
        getChecksumAddress (withHexPrefix s) ≠ some (withHexPrefix s) →
        isValidAddress s = { valid := false, address := s })
    ∧ (isValidAddress s = { valid := false, address := s }
        ∨ ∃ a, isValidAddress s = { valid := true, address := a }) := by
  refine ⟨?_, ?_, ?_⟩
  · intro h1 h2
    rw [isValidAddress, getAddress]
    simp [h1, h2]
  · intro h1 hmix hne
    rw [isValidAddress, getAddress]
    simp only [h1, if_true]
    cases hc : getChecksumAddress (withHexPrefix s) with
    | none => simp
    | some result =>
      have hres : result ≠ withHexPrefix s := fun hEq => hne (hc.trans (by rw [hEq]))
      simp [hmix, hres]
  · cases hg : getAddress s with
    | none => left; rw [isValidAddress, hg]
    | some a => right; exact ⟨a, by rw [isValidAddress, hg]⟩

/-- Witness for the amended C8: a short junk string is rejected with the
original string returned, and a wrong-checksum mixed-case address is
rejected with the original string returned. -/
theorem isValidAddress_malformed_rejected_witness :
    isValidAddress "0x123" = { valid := false, address := "0x123" }
    ∧ isValidAddress "0x5aAeb6053F3E94C9b9A09f33669435E7Ef1BeAeD"
      = { valid := false, address := "0x5aAeb6053F3E94C9b9A09f33669435E7Ef1BeAeD" } :=
  ⟨(isValidAddress_malformed_rejected "0x123").1 (by decide) (by decide),
   (isValidAddress_malformed_rejected "0x5aAeb6053F3E94C9b9A09f33669435E7Ef1BeAeD").2.1
     (by decide) (by decide) (by decide)⟩

/-- Claim C2 (counterexample) — The claim quantifies over every text
containing a well-formed `0x` token of length ≥ 42 anywhere. But the
matcher takes the FIRST `addressRegex` occurrence: in
`"0xAB and 0x1111…1111 tail"` the only well-formed ≥42 token starts at
position 9, yet the matcher extracts the earlier junk occurrence `0xAB`,
not the first 42 characters at the token's start. -/
theorem tweetCandidates_earlier_junk_counterexample :
    tweetCandidates "0xAB and 0x1111111111111111111111111111111111111111 tail"
      = ["0xAB"]
    ∧ wellFormedTokenAt
        (stripLineBreaks
          "0xAB and 0x1111111111111111111111111111111111111111 tail".data) 9 = true
    ∧ ((List.range
          (stripLineBreaks
            "0xAB and 0x1111111111111111111111111111111111111111 tail".data).length).all
        fun p => decide (p = 9)
          || !wellFormedTokenAt
            (stripLineBreaks
              "0xAB and 0x1111111111111111111111111111111111111111 tail".data) p) = true
    ∧ first42At
        (stripLineBreaks
          "0xAB and 0x1111111111111111111111111111111111111111 tail".data) 9
      = "0x1111111111111111111111111111111111111111"
    ∧ ("0x1111111111111111111111111111111111111111" : String) ≠ "0xAB" := by
  refine ⟨rfl, rfl, ?_, rfl, ?_⟩ <;> decide

/-- Claim C2 (amended) — Whenever the first `addressRegex` occurrence in a
text begins a well-formed `0x` token of length ≥ 42 (in particular, when
the first address-shaped occurrence is such a token), the Matcher extracts
exactly the first 42 characters starting at that occurrence's start,
discarding any trailing matched characters, and it extracts at most one
address-shaped candidate per text unit — exactly the first occurrence,
followed only by the (optional) name-shaped candidate. -/
theorem tweetCandidates_address_first42 (text : String) (m : List Char)
    (hm : firstMatch matchAddressAt (stripLineBreaks text.data) = some m)
    (hwf : wellFormedTokenAt m 0 = true) :
    tweetCandidates text
      = (⟨m.take 42⟩ : String)
          :: (firstMatch matchENSAt (stripLineBreaks text.data)).toList.map
              (fun e => (⟨if startsWith0x e then e.take 42 else e⟩ : String)) := by
  have hstart : startsWith0x m = true := by
    have h := hwf
    simp only [wellFormedTokenAt, List.drop_zero, Bool.and_eq_true] at h
    exact h.1.1
  cases hens : firstMatch matchENSAt (stripLineBreaks text.data) <;>
    simp [tweetCandidates, hm, hens, hstart]

/-- Witness for the amended C2: a 45-character `0x` token is truncated to
its first 42 characters and is the only candidate. -/
theorem tweetCandidates_address_first42_witness :
    firstMatch matchAddressAt
        (stripLineBreaks "hi 0xABCDEF1234567890ABCDEF1234567890ABCDEF12345 xx".data)
      = some "0xABCDEF1234567890ABCDEF1234567890ABCDEF12345".data
    ∧ wellFormedTokenAt "0xABCDEF1234567890ABCDEF1234567890ABCDEF12345".data 0 = true
    ∧ tweetCandidates "hi 0xABCDEF1234567890ABCDEF1234567890ABCDEF12345 xx"
      = ["0xABCDEF1234567890ABCDEF1234567890ABCDEF12"] := by
  refine ⟨rfl, by decide, ?_⟩
  rw [tweetCandidates_address_first42
    "hi 0xABCDEF1234567890ABCDEF1234567890ABCDEF12345 xx"
    "0xABCDEF1234567890ABCDEF1234567890ABCDEF12345".data rfl (by decide)]
  rfl

/-! Characterization machinery for the name-shaped matcher (C6). -/

theorem firstMatch_of_pos (f : List Char → Option (List Char)) :
    ∀ (l : List Char) (i : Nat) (m : List Char),
      (∀ j, j < i → f (l.drop j) = none) → f (l.drop i) = some m →
      firstMatch f l = some m := by
  intro l
  induction l with
  | nil =>
    intro i m _ hi
    rw [firstMatch]
    simpa using hi
  | cons c t ih =>
    intro i m hj hi
    cases i with
    | zero =>
      simp only [List.drop_zero] at hi
      rw [firstMatch, hi]
    | succ j =>
      have h0 : f (c :: t) = none := by simpa using hj 0 (Nat.succ_pos j)
      rw [firstMatch, h0]
      exact ih j m (fun j' hj' => by simpa using hj (j' + 1) (by omega))
        (by simpa using hi)

theorem isDotEthAt_length : ∀ l : List Char, isDotEthAt l = true → 4 ≤ l.length := by
  intro l h
  rcases l with _ | ⟨a, _ | ⟨b, _ | ⟨c, _ | ⟨d, r⟩⟩⟩⟩
  · exact absurd h (by simp [isDotEthAt])
  · exact absurd h (by simp [isDotEthAt])
  · exact absurd h (by simp [isDotEthAt])
  · exact absurd h (by simp [isDotEthAt])
  · simp

theorem greedyENSLen_spec (l : List Char) :
    ∀ (bound k : Nat), greedyENSLen l bound = some k →
      1 ≤ k ∧ k ≤ bound ∧ isDotEthAt (l.drop k) = true
        ∧ ∀ k', k < k' → k' ≤ bound → isDotEthAt (l.drop k') = false := by
  intro bound
  induction bound with
  | zero => intro k h; simp [greedyENSLen] at h
  | succ b ih =>
    intro k h
    rw [greedyENSLen] at h
    by_cases hd : isDotEthAt (l.drop (b + 1)) = true
    · rw [if_pos hd] at h
      obtain rfl : b + 1 = k := Option.some.inj h
      exact ⟨by omega, by omega, hd, fun k' h1 h2 => by omega⟩
    · rw [if_neg hd] at h
      obtain ⟨h1, h2, h3, h4⟩ := ih k h
      refine ⟨h1, by omega, h3, fun k' hk1 hk2 => ?_⟩
      rcases Nat.lt_or_ge k' (b + 1) with hlt | hge
      · exact h4 k' hk1 (by omega)
      · have hk' : k' = b + 1 := by omega
        subst hk'
        simpa using hd

theorem matchENSAt_spec (l m : List Char) (h : matchENSAt l = some m) :
    ∃ k, m = l.take (k + 4) ∧ m.length = k + 4 ∧ 1 ≤ k
      ∧ k ≤ (l.takeWhile (fun c => c ≠ ' ')).length
      ∧ isDotEthAt (l.drop k) = true
      ∧ ∀ k', k < k' → k' ≤ (l.takeWhile (fun c => c ≠ ' ')).length →
          isDotEthAt (l.drop k') = false := by
  rw [matchENSAt] at h
  cases hg : greedyENSLen l ((l.takeWhile fun c => c ≠ ' ').length) with
  | none => rw [hg] at h; exact absurd h (by simp)
  | some k =>
    rw [hg] at h
    obtain rfl : l.take (k + 4) = m := Option.some.inj h
    obtain ⟨h1, h2, h3, h4⟩ := greedyENSLen_spec l _ k hg
    have hlen4 : 4 ≤ (l.drop k).length := isDotEthAt_length _ h3
    have hlen : (l.take (k + 4)).length = k + 4 := by
      simp only [List.length_take, List.length_drop] at *
      omega
    exact ⟨k, rfl, hlen, h1, h2, h3, h4⟩

theorem take_ne_space (l : List Char) (k : Nat)
    (hk : k ≤ (l.takeWhile (fun c => c ≠ ' ')).length) :
    ∀ c ∈ l.take k, c ≠ ' ' := by
  intro c hc
  obtain ⟨t, ht⟩ := List.takeWhile_prefix (l := l) (p := fun c => decide (c ≠ ' '))
  have heq : l.take k = (l.takeWhile (fun c => decide (c ≠ ' '))).take k := by
    conv_lhs => rw [← ht]
    rw [List.take_append_eq_append_take]
    have h0 : k - (l.takeWhile (fun c => decide (c ≠ ' '))).length = 0 := by
      simpa using (by omega : k - (l.takeWhile (fun c => c ≠ ' ')).length = 0)
    rw [h0]
    simp
  rw [heq] at hc
  have hc2 : c ∈ l.takeWhile (fun c => decide (c ≠ ' ')) := List.take_subset _ _ hc
  have hp := List.mem_takeWhile_imp hc2
  simpa using hp

/-- Claim C6 (counterexample) — The claim says the name-shaped candidate is
the maximal run of NON-WHITESPACE characters ending in a case-insensitive
`.eth` suffix. But `[^ ]` excludes only the space character (tabs are run
characters), and the `.eth` need not sit at the run's end. On `"a\tb.ethx"`
the spec-side reading (`specNameCandidate`, tokens split on whitespace,
token must end in `.eth`) produces no candidate, while the matcher
produces `"a\tb.eth"` — spanning a tab and stopping short of the run's
end. -/
theorem matcher_name_tab_counterexample :
    firstMatch matchENSAt (stripLineBreaks "a\tb.ethx".data)
      = some "a\tb.eth".data
    ∧ tweetCandidates "a\tb.ethx" = ["a\tb.eth"]
    ∧ specNameCandidate "a\tb.ethx" = none :=
  ⟨rfl, rfl, rfl⟩

/-- Claim C6 (amended) — For every input text, the name-shaped candidate the
Matcher produces is characterized as follows: it is extracted
case-preserved as a contiguous slice of the (line-break-stripped) text,
taken at the earliest position admitting a match; it consists of a
non-empty block of non-SPACE characters (space U+0020 only — tabs and
other whitespace count as run characters) followed by a case-insensitive
`.eth`; and it is greedy — no later case-insensitive `.eth` is reachable
within the maximal non-space run, so the candidate ends at the last `.eth`
in the run (which need not be at the run's end). Here `i` is the earliest
matching position and `m.length - 4` the length of the part before the
final `.eth`. -/
theorem matcher_name_candidate_characterized (text : String) (m : List Char) (i : Nat)
    (hEarlier : ∀ j, j < i → matchENSAt ((stripLineBreaks text.data).drop j) = none)
    (hAt : matchENSAt ((stripLineBreaks text.data).drop i) = some m) :
    firstMatch matchENSAt (stripLineBreaks text.data) = some m
    ∧ m = ((stripLineBreaks text.data).drop i).take (m.length - 4 + 4)
    ∧ 1 ≤ m.length - 4
    ∧ (∀ c ∈ ((stripLineBreaks text.data).drop i).take (m.length - 4), c ≠ ' ')
    ∧ isDotEthAt (((stripLineBreaks text.data).drop i).drop (m.length - 4)) = true
    ∧ ∀ k', m.length - 4 < k' →
        k' ≤ (((stripLineBreaks text.data).drop i).takeWhile (fun c => c ≠ ' ')).length →
        isDotEthAt (((stripLineBreaks text.data).drop i).drop k') = false := by
  obtain ⟨k, hm, hlen, h1, h2, h3, h4⟩ := matchENSAt_spec _ m hAt
  have hk : m.length - 4 = k := by omega
  rw [hk]
  exact ⟨firstMatch_of_pos _ _ i m hEarlier hAt, hm, h1,
    take_ne_space _ k h2, h3, h4⟩

/-- Witness for the amended C6 at the scenario-B text: the candidate
`Vitalik.ETH` matches at position 11 and at no earlier position. -/
theorem matcher_name_candidate_characterized_witness :
    firstMatch matchENSAt (stripLineBreaks "my name is Vitalik.ETH friend".data)
      = some "Vitalik.ETH".data
    ∧ isDotEthAt
        (((stripLineBreaks "my name is Vitalik.ETH friend".data).drop 11).drop
          ("Vitalik.ETH".data.length - 4)) = true := by
  have h := matcher_name_candidate_characterized "my name is Vitalik.ETH friend"
    "Vitalik.ETH".data 11 (by decide) rfl
  exact ⟨h.1, h.2.2.2.2.1⟩

end Tweetdrop

